import Mathlib

/-!
Verification of the CopyQ clipboard-monitor core: a shallow embedding of
`src/app/clipboardmonitor.cpp` (change-detection / dedup, message dispatch,
deferred clipboard writes) and of the length-framed transport described by
the header `src/common/clientsocket.h`, together with theorems settling the
behavioural claims about this code.

Modelling conventions:
* `QVariantMap` snapshots are association lists from format name (`String`)
  to raw byte value (`List Nat`); `QMap` guarantees unique keys, written
  here as the `distinctKeys` predicate where a proof needs it.
* `QString::startsWith` is modelled on the character sequence of the
  strings (`startsWithQ`).
* Side effects (messages sent, clipboard writes, capability calls) are
  returned as explicit `Effect` lists.
-/

/-- Format identifiers of a clipboard snapshot (QString keys of QVariantMap). -/
abbrev Format := String

/-- Raw byte value of one format (QByteArray content of a QVariant). -/
abbrev ByteValue := List Nat

/-- A clipboard snapshot: QVariantMap as an association list with unique keys. -/
abbrev VariantMap := List (Format × ByteValue)

/-- QMap's unique-key guarantee for the association-list model. -/
def distinctKeys (m : VariantMap) : Prop := (m.map Prod.fst).Nodup

instance (m : VariantMap) : Decidable (distinctKeys m) := by
  unfold distinctKeys; infer_instance

/-- QString::startsWith, modelled on the character sequences of the strings. -/
def startsWithQ (s p : String) : Bool := p.data.isPrefixOf s.data

/-- The COPYQ_MIME_PREFIX macro: reserved name marker of internal-metadata
formats (value from CopyQ's mimetypes header; the spec identifies
internal-metadata formats by this reserved name marker). -/
def copyqMimeStart : String := "application/x-copyq-"

/-- Modelled from the spec: mimetypes.h is not part of the sources; the mode
tag written by the monitor is an internal-metadata format. -/
def mimeClipboardMode : String := "application/x-copyq-mode"

/-- Modelled from the spec: the owner annotation is an internal-metadata format. -/
def mimeOwner : String := "application/x-copyq-owner"

/-- Modelled from the spec: the window-title annotation is an internal-metadata
format. -/
def mimeWindowTitle : String := "application/x-copyq-owner-window-title"

/-- QMap::value as an Option: the stored value at a key, none when absent
(QMap::value returns an invalid QVariant then). -/
def lookupMap : VariantMap → Format → Option ByteValue
  | [], _ => none
  | p :: rest, k => if p.1 = k then some p.2 else lookupMap rest k

/-- QMap::contains on the association-list model. -/
def containsKey (m : VariantMap) (k : Format) : Bool := (lookupMap m k).isSome

/-- QMap::insert: replace the value at an existing key, else add the entry. -/
def insertMap : VariantMap → Format → ByteValue → VariantMap
  | [], k, v => [(k, v)]
  | p :: rest, k, v => if p.1 = k then (k, v) :: rest else p :: insertMap rest k v

/-- The anonymous-namespace helper hasSameData of clipboardmonitor.cpp
(lines 34-56): the newly observed snapshot `data` is judged a duplicate of
the stored snapshot `lastData`.  The second pass mirrors
`data[format] != lastData.value(format)`: a present non-empty value must
equal the value stored under the same format. -/
def hasSameData (data lastData : VariantMap) : Bool :=
  (lastData.all fun it =>
    startsWithQ it.1 copyqMimeStart || containsKey data it.1)
  &&
  (data.all fun it =>
    startsWithQ it.1 copyqMimeStart || it.2.isEmpty
      || (lookupMap lastData it.1 == some it.2))

section HelperLemmas

theorem lookupMap_eq_some_of_mem {m : VariantMap} {p : Format × ByteValue}
    (hnd : distinctKeys m) (hp : p ∈ m) : lookupMap m p.1 = some p.2 := by
  induction m with
  | nil => cases hp
  | cons q rest ih =>
    rcases List.mem_cons.mp hp with rfl | hmem
    · simp [lookupMap]
    · have hq : q.1 ≠ p.1 := by
        intro he
        have : q.1 ∈ rest.map Prod.fst := by
          rw [he]; exact List.mem_map.mpr ⟨p, hmem, rfl⟩
        exact (List.nodup_cons.mp hnd).1 this
      have hnd' : distinctKeys rest := (List.nodup_cons.mp hnd).2
      simp only [lookupMap, if_neg hq]
      exact ih hnd' hmem

theorem containsKey_of_mem {m : VariantMap} {p : Format × ByteValue}
    (hp : p ∈ m) : containsKey m p.1 = true := by
  induction m with
  | nil => cases hp
  | cons q rest ih =>
    rcases List.mem_cons.mp hp with rfl | hmem
    · simp [containsKey, lookupMap]
    · by_cases hq : q.1 = p.1
      · simp [containsKey, lookupMap, hq]
      · simpa [containsKey, lookupMap, hq] using ih hmem

theorem mem_insertMap {m : VariantMap} {k : Format} {v : ByteValue}
    {p : Format × ByteValue} (hp : p ∈ insertMap m k v) :
    p = (k, v) ∨ p ∈ m := by
  induction m with
  | nil => simpa [insertMap] using hp
  | cons q rest ih =>
    by_cases hq : q.1 = k
    · simp only [insertMap, if_pos hq] at hp
      rcases List.mem_cons.mp hp with rfl | hmem
      · exact Or.inl rfl
      · exact Or.inr (List.mem_cons.mpr (Or.inr hmem))
    · simp only [insertMap, if_neg hq] at hp
      rcases List.mem_cons.mp hp with rfl | hmem
      · exact Or.inr (List.mem_cons.mpr (Or.inl rfl))
      · rcases ih hmem with h | h
        · exact Or.inl h
        · exact Or.inr (List.mem_cons.mpr (Or.inr h))

theorem lookupMap_insertMap_ne {m : VariantMap} {k k' : Format}
    {v : ByteValue} (hne : k ≠ k') :
    lookupMap (insertMap m k v) k' = lookupMap m k' := by
  induction m with
  | nil => simp [insertMap, lookupMap, hne]
  | cons q rest ih =>
    by_cases hq : q.1 = k
    · simp [insertMap, if_pos hq, lookupMap, hne, hq]
    · simp only [insertMap, if_neg hq, lookupMap]
      by_cases hq' : q.1 = k'
      · simp [hq']
      · simp [hq', ih]

theorem hasSameData_iff (data lastData : VariantMap) :
    hasSameData data lastData = true ↔
      ((∀ p ∈ lastData, startsWithQ p.1 copyqMimeStart = false →
          containsKey data p.1 = true) ∧
       (∀ p ∈ data, startsWithQ p.1 copyqMimeStart = false → p.2 ≠ [] →
          lookupMap lastData p.1 = some p.2)) := by
  simp only [hasSameData, Bool.and_eq_true, List.all_eq_true]
  constructor
  · rintro ⟨h1, h2⟩
    refine ⟨fun p hp hm => ?_, fun p hp hm hne => ?_⟩
    · have h := h1 p hp
      rw [hm, Bool.false_or] at h
      exact h
    · have h := h2 p hp
      have hv : p.2.isEmpty = false := by
        cases he : p.2.isEmpty
        · rfl
        · exact absurd (List.isEmpty_iff.mp he) hne
      rw [hm, hv, Bool.false_or, Bool.false_or] at h
      exact eq_of_beq h
  · rintro ⟨h1, h2⟩
    refine ⟨fun p hp => ?_, fun p hp => ?_⟩
    · cases hm : startsWithQ p.1 copyqMimeStart
      · rw [Bool.false_or]
        exact h1 p hp hm
      · rw [Bool.true_or]
    · cases hm : startsWithQ p.1 copyqMimeStart
      · cases hv : p.2.isEmpty
        · have hne : p.2 ≠ [] := by
            intro he; rw [he] at hv; cases hv
          rw [Bool.false_or, Bool.false_or]
          exact beq_iff_eq.mpr (h2 p hp hm hne)
        · rw [Bool.false_or, Bool.true_or]
      · rw [Bool.true_or, Bool.true_or]

end HelperLemmas

/-- C1: the duplicate verdict of hasSameData holds exactly when every
non-metadata format of `lastData` is still a key of `data` and every
non-metadata format of `data` with a non-empty value keeps the value stored
in `lastData`; metadata formats never affect the verdict. -/
theorem dedup_duplicate_characterization (data lastData : VariantMap) :
    hasSameData data lastData = true ↔
      ((∀ p ∈ lastData, startsWithQ p.1 copyqMimeStart = false →
          containsKey data p.1 = true) ∧
       (∀ p ∈ data, startsWithQ p.1 copyqMimeStart = false → p.2 ≠ [] →
          lookupMap lastData p.1 = some p.2)) :=
  hasSameData_iff data lastData

/-- PlatformClipboard::Mode: the clipboard buffers the monitor watches. -/
inductive Mode
  | Clipboard
  | Selection
  | FindBuffer
deriving DecidableEq, Repr

/-- Settings map decoded from a MonitorSettings payload: each QVariant value
is modelled by its toStringList conversion, which is all the dispatcher
reads from it. -/
abbrev SettingsMap := List (String × List String)

/-- Inbound messages, dispatch-ready: monitormessagecode.h and the payload
codecs (QDataStream, item/serialize) are not part of the sources, so each
constructor carries the decoded payload; `settings none` is a MonitorSettings
message whose payload fails to decode (QDataStream then leaves the map
cleared, and the handler never checks the stream status). -/
inductive Msg
  | ping
  | settings (decoded : Option SettingsMap)
  | changeClipboard (data : VariantMap)
  | changeSelection (data : VariantMap)
  | unknown (code : Int)

/-- Observable side effects of the dispatcher, in emission order. -/
inductive Effect
  | sendPong
  | sendClipboardChanged (data : VariantMap)
  | loadSettingsEff (settings : SettingsMap)
  | setDataEff (mode : Mode) (data : VariantMap)
  | logUnknown (code : Int)
deriving DecidableEq

/-- ClipboardMonitor's mutable state: m_formats, m_lastData (QMap with
default-constructed missing entries, hence a total function), m_newData
(QMap, hence Option per mode), the changed-signal connection count
(Qt::UniqueConnection keeps it at most one), and m_timerSetNewClipboard. -/
structure MonitorState where
  formats : List String
  lastData : Mode → VariantMap
  newData : Mode → Option VariantMap
  subscriptionCount : Nat
  timerActive : Bool

/-- State right after the ClipboardMonitor constructor. -/
def initMonitorState : MonitorState :=
  { formats := []
    lastData := fun _ => []
    newData := fun _ => none
    subscriptionCount := 0
    timerActive := false }

/-- ClipboardMonitor::onMessageReceived (lines 111-159): dispatch on the
message code; settings update m_formats when the key is present, connect the
changed signal with Qt::UniqueConnection and forward the settings to the
clipboard capability; change commands store the decoded snapshot in
m_newData and start the zero-interval single-shot timer; unknown codes are
logged. -/
def onMessageReceived (st : MonitorState) (msg : Msg) :
    MonitorState × List Effect :=
  match msg with
  | .ping => (st, [.sendPong])
  | .settings decoded =>
      let settings := decoded.getD []
      let formats' :=
        match List.lookup "formats" settings with
        | some fs => fs
        | none => st.formats
      let subCount' :=
        if st.subscriptionCount = 0 then 1 else st.subscriptionCount
      ({ st with formats := formats', subscriptionCount := subCount' },
       [.loadSettingsEff settings])
  | .changeClipboard data =>
      ({ st with
          newData := fun m => if m = Mode.Clipboard then some data else st.newData m
          timerActive := true }, [])
  | .changeSelection data =>
      ({ st with
          newData := fun m => if m = Mode.Selection then some data else st.newData m
          timerActive := true }, [])
  | .unknown code => (st, [.logUnknown code])

/-- UTF-8 bytes of a string, for values the monitor itself inserts. -/
def strBytes (s : String) : ByteValue := s.toUTF8.toList.map (fun b => b.toNat)

/-- The mode tag value inserted for non-clipboard modes (lines 93-95). -/
def modeNameBytes (mode : Mode) : ByteValue :=
  if mode = Mode.Selection then strBytes "selection" else strBytes "find buffer"

/-- Tagging done by onClipboardChanged after the dedup check (lines 92-105):
add the mode name for non-clipboard modes, then the owning window's title
when neither owner nor window-title metadata is present and a current window
exists. -/
def tagSnapshot (mode : Mode) (d : VariantMap) (windowTitle : Option ByteValue) :
    VariantMap :=
  let data1 :=
    if mode = Mode.Clipboard then d
    else insertMap d mimeClipboardMode (modeNameBytes mode)
  if containsKey data1 mimeOwner || containsKey data1 mimeWindowTitle then data1
  else
    match windowTitle with
    | some t => insertMap data1 mimeWindowTitle t
    | none => data1

/-- ClipboardMonitor::onClipboardChanged (lines 78-109): `clipData` is what
the clipboard capability reports for the mode, `windowTitle` the optional
current-window title.  A duplicate is ignored; otherwise the tagged snapshot
is sent outward as MonitorClipboardChanged and becomes the stored baseline. -/
def onClipboardChanged (st : MonitorState) (mode : Mode) (clipData : VariantMap)
    (windowTitle : Option ByteValue) : MonitorState × List Effect :=
  let lastData := st.lastData mode
  if hasSameData clipData lastData then (st, [])
  else
    let data2 := tagSnapshot mode clipData windowTitle
    ({ st with lastData := fun m => if m = mode then data2 else st.lastData m },
     [.sendClipboardChanged data2])

/-- ClipboardMonitor::setNewClipboard(mode) (lines 180-184): apply and take
the pending snapshot for one mode, when present. -/
def setNewClipboardMode (st : MonitorState) (mode : Mode) :
    MonitorState × List Effect :=
  match st.newData mode with
  | some d =>
      ({ st with newData := fun m => if m = mode then none else st.newData m },
       [.setDataEff mode d])
  | none => (st, [])

/-- ClipboardMonitor::setNewClipboard() (lines 171-178): the slot of the
single-shot timer; when the timer is not active, flush the clipboard mode
and then the selection mode. -/
def setNewClipboardSlot (st : MonitorState) : MonitorState × List Effect :=
  if st.timerActive then (st, [])
  else
    let r1 := setNewClipboardMode st Mode.Clipboard
    let r2 := setNewClipboardMode r1.1 Mode.Selection
    (r2.1, r1.2 ++ r2.2)

/-- Firing of the zero-interval single-shot timer: the timer deactivates and
its timeout invokes the setNewClipboard slot. -/
def timerFire (st : MonitorState) : MonitorState × List Effect :=
  setNewClipboardSlot { st with timerActive := false }

/-- Process a list of inbound messages in order, keeping only the state. -/
def runMsgs (st : MonitorState) : List Msg → MonitorState
  | [] => st
  | msg :: rest => runMsgs (onMessageReceived st msg).1 rest

/-- Dispatcher states reachable from construction through any interleaving
of inbound messages, capability change events and timer firings. -/
inductive Reached : MonitorState → Prop
  | init : Reached initMonitorState
  | msg {st : MonitorState} (m : Msg) :
      Reached st → Reached (onMessageReceived st m).1
  | changed {st : MonitorState} (mode : Mode) (data : VariantMap)
      (wt : Option ByteValue) :
      Reached st → Reached (onClipboardChanged st mode data wt).1
  | fire {st : MonitorState} :
      Reached st → Reached (timerFire st).1

section TagLemmas

theorem meta_mimeClipboardMode :
    startsWithQ mimeClipboardMode copyqMimeStart = true := by decide

theorem meta_mimeWindowTitle :
    startsWithQ mimeWindowTitle copyqMimeStart = true := by decide

theorem metaKey_ne {k k' : Format}
    (hk : startsWithQ k copyqMimeStart = true)
    (hk' : startsWithQ k' copyqMimeStart = false) : k ≠ k' := by
  intro he; rw [he, hk'] at hk; cases hk

theorem mem_insertMap_meta {m' : VariantMap} {k : Format} {v : ByteValue}
    {q : Format × ByteValue} (hk : startsWithQ k copyqMimeStart = true)
    (hq : q ∈ insertMap m' k v)
    (hqm : startsWithQ q.1 copyqMimeStart = false) : q ∈ m' := by
  rcases mem_insertMap hq with rfl | h
  · rw [hk] at hqm; cases hqm
  · exact h

/-- The snapshot `e` extends `d` by insertions of internal-metadata formats
only; the tagging of onClipboardChanged produces such an extension. -/
inductive MetaExtends : VariantMap → VariantMap → Prop
  | refl (m : VariantMap) : MetaExtends m m
  | ins {m m' : VariantMap} {k : Format} {v : ByteValue} :
      startsWithQ k copyqMimeStart = true → MetaExtends m m' →
      MetaExtends m (insertMap m' k v)

theorem tagSnapshot_metaExtends (mode : Mode) (d : VariantMap)
    (wt : Option ByteValue) : MetaExtends d (tagSnapshot mode d wt) := by
  have aux : ∀ d1 : VariantMap, MetaExtends d d1 →
      MetaExtends d
        (if containsKey d1 mimeOwner || containsKey d1 mimeWindowTitle then d1
         else
           match wt with
           | some t => insertMap d1 mimeWindowTitle t
           | none => d1) := by
    intro d1 h1
    split
    · exact h1
    · cases wt with
      | some t => exact MetaExtends.ins meta_mimeWindowTitle h1
      | none => exact h1
  simp only [tagSnapshot]
  by_cases hmc : mode = Mode.Clipboard
  · simp only [if_pos hmc]
    exact aux d (MetaExtends.refl d)
  · simp only [if_neg hmc]
    exact aux _ (MetaExtends.ins meta_mimeClipboardMode (MetaExtends.refl d))

theorem mem_of_metaExtends {d e : VariantMap} {p : Format × ByteValue}
    (he : MetaExtends d e) (hp : p ∈ e)
    (hm : startsWithQ p.1 copyqMimeStart = false) : p ∈ d := by
  induction he with
  | refl => exact hp
  | ins hk _hext ih => exact ih (mem_insertMap_meta hk hp hm)

theorem lookupMap_of_metaExtends {d e : VariantMap} {k : Format}
    (he : MetaExtends d e) (hm : startsWithQ k copyqMimeStart = false) :
    lookupMap e k = lookupMap d k := by
  induction he with
  | refl => rfl
  | ins hk _hext ih => rw [lookupMap_insertMap_ne (metaKey_ne hk hm), ih]

theorem hasSameData_tagSnapshot (mode : Mode) {d : VariantMap}
    (wt : Option ByteValue) (hnd : distinctKeys d) :
    hasSameData d (tagSnapshot mode d wt) = true := by
  have hext := tagSnapshot_metaExtends mode d wt
  rw [hasSameData_iff]
  constructor
  · intro p hp hm
    exact containsKey_of_mem (mem_of_metaExtends hext hp hm)
  · intro p hp hm _hne
    rw [lookupMap_of_metaExtends hext hm]
    exact lookupMap_eq_some_of_mem hnd hp

end TagLemmas

/-- C2: once a non-duplicate snapshot is accepted and the post-tagging
snapshot stored as baseline, a second change event delivering the same
snapshot for the same mode is judged a duplicate: state unchanged and no
outward message. -/
theorem dedup_idempotent_after_store (st : MonitorState) (mode : Mode)
    (data : VariantMap) (wt wt' : Option ByteValue)
    (hnd : distinctKeys data)
    (hacc : (onClipboardChanged st mode data wt).2 ≠ []) :
    onClipboardChanged (onClipboardChanged st mode data wt).1 mode data wt' =
      ((onClipboardChanged st mode data wt).1, []) := by
  by_cases hs : hasSameData data (st.lastData mode) = true
  · exfalso
    apply hacc
    simp [onClipboardChanged, hs]
  · have hs' : hasSameData data (st.lastData mode) = false := by
      cases h : hasSameData data (st.lastData mode)
      · rfl
      · exact absurd h hs
    have hdup : hasSameData data
        ((onClipboardChanged st mode data wt).1.lastData mode) = true := by
      have hfst :
          (onClipboardChanged st mode data wt).1.lastData mode =
            tagSnapshot mode data wt := by
        simp [onClipboardChanged, hs']
      rw [hfst]
      exact hasSameData_tagSnapshot mode wt hnd
    generalize hst : (onClipboardChanged st mode data wt).1 = st'
    rw [hst] at hdup
    simp [onClipboardChanged, hdup]

/-- Witness state for C2: empty baseline, one plain-text change accepted. -/
def sampleData : VariantMap := [("text/plain", [104, 105])]

theorem dedup_idempotent_after_store_witness :
    distinctKeys sampleData ∧
    (onClipboardChanged initMonitorState Mode.Clipboard sampleData none).2 ≠ [] ∧
    onClipboardChanged
        (onClipboardChanged initMonitorState Mode.Clipboard sampleData none).1
        Mode.Clipboard sampleData none =
      ((onClipboardChanged initMonitorState Mode.Clipboard sampleData none).1,
        []) :=
  ⟨by decide, by decide,
   dedup_idempotent_after_store initMonitorState Mode.Clipboard sampleData
     none none (by decide) (by decide)⟩

/-- Snapshot transformation of C4: the chosen non-metadata formats keep
their keys but their values become empty byte sequences. -/
def clearFormats (m : VariantMap) (cleared : Format → Bool) : VariantMap :=
  m.map fun p =>
    if !startsWithQ p.1 copyqMimeStart && cleared p.1 then (p.1, ([] : ByteValue))
    else p

theorem containsKey_clearFormats (m : VariantMap) (cleared : Format → Bool)
    (k : Format) : containsKey (clearFormats m cleared) k = containsKey m k := by
  induction m with
  | nil => rfl
  | cons p rest ih =>
    have hkey :
        (if !startsWithQ p.1 copyqMimeStart && cleared p.1
         then (p.1, ([] : ByteValue)) else p).1 = p.1 := by
      split <;> rfl
    simp only [clearFormats, List.map_cons, containsKey, lookupMap, hkey]
    by_cases h : p.1 = k
    · rw [if_pos h, if_pos h]
      rfl
    · rw [if_neg h, if_neg h]
      exact ih

/-- C4: clearing the contents of any set of non-metadata formats while
keeping their keys yields a snapshot the dedup check judges a duplicate of
the stored baseline, so no outward message is sent and the state is
unchanged. -/
theorem cleared_values_invisible_to_dedup (st : MonitorState) (mode : Mode)
    (cleared : Format → Bool) (wt : Option ByteValue)
    (hnd : distinctKeys (st.lastData mode)) :
    onClipboardChanged st mode (clearFormats (st.lastData mode) cleared) wt =
      (st, []) := by
  have hdup : hasSameData (clearFormats (st.lastData mode) cleared)
      (st.lastData mode) = true := by
    rw [hasSameData_iff]
    constructor
    · intro p hp _hm
      rw [containsKey_clearFormats]
      exact containsKey_of_mem hp
    · intro q hq _hm hne
      rcases List.mem_map.mp hq with ⟨p, hp, hfp⟩
      by_cases hb : (!startsWithQ p.1 copyqMimeStart && cleared p.1) = true
      · rw [if_pos hb] at hfp
        rw [← hfp] at hne
        exact absurd rfl hne
      · rw [if_neg hb] at hfp
        rw [← hfp]
        exact lookupMap_eq_some_of_mem hnd hp
  simp [onClipboardChanged, hdup]

theorem cleared_values_invisible_to_dedup_witness :
    distinctKeys
      (({ initMonitorState with lastData := fun _ => sampleData } :
        MonitorState).lastData Mode.Clipboard) ∧
    onClipboardChanged
        ({ initMonitorState with lastData := fun _ => sampleData } : MonitorState)
        Mode.Clipboard
        (clearFormats
          (({ initMonitorState with lastData := fun _ => sampleData } :
            MonitorState).lastData Mode.Clipboard)
          (fun _ => true))
        none =
      (({ initMonitorState with lastData := fun _ => sampleData } :
        MonitorState), []) :=
  ⟨by decide,
   cleared_values_invisible_to_dedup
     ({ initMonitorState with lastData := fun _ => sampleData }) Mode.Clipboard
     (fun _ => true) none (by decide)⟩

/-- C9: with an empty stored baseline for a mode, a change event whose
snapshot holds only internal-metadata formats or empty values is judged a
duplicate: no outward message and the baseline stays empty. -/
theorem metadata_only_first_event_suppressed (st : MonitorState) (mode : Mode)
    (data : VariantMap) (wt : Option ByteValue)
    (hlast : st.lastData mode = [])
    (hmeta : ∀ p ∈ data, startsWithQ p.1 copyqMimeStart = true ∨ p.2 = []) :
    onClipboardChanged st mode data wt = (st, []) := by
  have hdup : hasSameData data (st.lastData mode) = true := by
    rw [hlast, hasSameData_iff]
    constructor
    · intro p hp
      cases hp
    · intro p hp hm hne
      rcases hmeta p hp with h | h
      · rw [hm] at h; cases h
      · exact absurd h hne
  simp [onClipboardChanged, hdup]

/-- Metadata-or-empty snapshot used in the C9 witness. -/
def metaOnlyData : VariantMap :=
  [(mimeClipboardMode, [110]), ("text/plain", [])]

theorem metadata_only_first_event_suppressed_witness :
    initMonitorState.lastData Mode.Selection = [] ∧
    (∀ p ∈ metaOnlyData,
      startsWithQ p.1 copyqMimeStart = true ∨ p.2 = []) ∧
    onClipboardChanged initMonitorState Mode.Selection metaOnlyData none =
      (initMonitorState, []) :=
  ⟨rfl, by decide,
   metadata_only_first_event_suppressed initMonitorState Mode.Selection
     metaOnlyData none rfl (by decide)⟩

/-- C5 counterexample: at the freshly constructed dispatcher (no
subscription yet), a MonitorSettings message whose payload fails to decode
still executes the connect call, so the change-event subscription state
changes — the claim that it is left unchanged is false. -/
theorem malformed_settings_subscribes_counterexample :
    (onMessageReceived initMonitorState (Msg.settings none)).1.subscriptionCount ≠
      initMonitorState.subscriptionCount := by decide

/-- C5 amended: a malformed MonitorSettings payload proceeds with a cleared
settings map, so the accepted-format allowlist, the stored baselines, the
pending writes and the timer are unchanged and nothing fatal happens (the
only effect is forwarding the empty settings map to the capability, no exit
and no close); the change-event subscription is still performed
idempotently, so it is created when absent and unchanged when present. -/
theorem malformed_settings_effects (st : MonitorState) :
    (onMessageReceived st (Msg.settings none)).1.formats = st.formats ∧
    (onMessageReceived st (Msg.settings none)).1.lastData = st.lastData ∧
    (onMessageReceived st (Msg.settings none)).1.newData = st.newData ∧
    (onMessageReceived st (Msg.settings none)).1.timerActive = st.timerActive ∧
    (onMessageReceived st (Msg.settings none)).1.subscriptionCount =
      (if st.subscriptionCount = 0 then 1 else st.subscriptionCount) ∧
    (onMessageReceived st (Msg.settings none)).2 =
      [Effect.loadSettingsEff []] :=
  ⟨rfl, rfl, rfl, rfl, rfl, rfl⟩

/-- Recogniser of MonitorSettings messages. -/
def isSettingsMsg : Msg → Bool
  | .settings _ => true
  | _ => false

theorem subscriptionCount_le_one_step (st : MonitorState) (m : Msg)
    (h : st.subscriptionCount ≤ 1) :
    (onMessageReceived st m).1.subscriptionCount ≤ 1 := by
  cases m <;> simp [onMessageReceived] <;> first | exact h | (split <;> omega)

theorem subscriptionCount_settings (st : MonitorState) (m : Msg)
    (hm : isSettingsMsg m = true) (h : st.subscriptionCount ≤ 1) :
    (onMessageReceived st m).1.subscriptionCount = 1 := by
  cases m <;> simp [isSettingsMsg] at hm
  simp only [onMessageReceived]
  split <;> omega

theorem subscriptionCount_other (st : MonitorState) (m : Msg)
    (hm : isSettingsMsg m = false) :
    (onMessageReceived st m).1.subscriptionCount = st.subscriptionCount := by
  cases m <;> simp [isSettingsMsg] at hm <;> simp [onMessageReceived]

theorem runMsgs_subscriptionCount (msgs : List Msg) :
    ∀ st : MonitorState, st.subscriptionCount ≤ 1 →
    ((∃ m ∈ msgs, isSettingsMsg m = true) ∨ st.subscriptionCount = 1) →
    (runMsgs st msgs).subscriptionCount = 1 := by
  induction msgs with
  | nil =>
    intro st _h1 h2
    rcases h2 with h | h
    · rcases h with ⟨m, hm, _⟩; cases hm
    · exact h
  | cons m rest ih =>
    intro st h1 h2
    show (runMsgs (onMessageReceived st m).1 rest).subscriptionCount = 1
    apply ih _ (subscriptionCount_le_one_step st m h1)
    cases hm : isSettingsMsg m
    · rcases h2 with ⟨m', hm', hset⟩ | h
      · rcases List.mem_cons.mp hm' with rfl | hmem
        · rw [hm] at hset; cases hset
        · exact Or.inl ⟨m', hmem, hset⟩
      · exact Or.inr (by rw [subscriptionCount_other st m hm]; exact h)
    · exact Or.inr (subscriptionCount_settings st m hm h1)

/-- C6: after processing any message sequence containing at least one
MonitorSettings message (well-formed or not), exactly one change-event
subscription exists — Qt::UniqueConnection keeps repeated MonitorSettings
messages from creating a duplicate. -/
theorem settings_subscription_idempotent (msgs : List Msg)
    (h : ∃ m ∈ msgs, isSettingsMsg m = true) :
    (runMsgs initMonitorState msgs).subscriptionCount = 1 :=
  runMsgs_subscriptionCount msgs initMonitorState (by decide) (Or.inl h)

theorem settings_subscription_idempotent_witness :
    (∃ m ∈ [Msg.settings (some []), Msg.settings (some []), Msg.ping],
      isSettingsMsg m = true) ∧
    (runMsgs initMonitorState
      [Msg.settings (some []), Msg.settings (some []), Msg.ping]).subscriptionCount
      = 1 :=
  ⟨by decide,
   settings_subscription_idempotent
     [Msg.settings (some []), Msg.settings (some []), Msg.ping] (by decide)⟩

/-- Recogniser of a clipboard-capability write for one mode. -/
def isSetDataFor (mode : Mode) : Effect → Bool
  | .setDataEff m _ => decide (m = mode)
  | _ => false

theorem runMsgs_changeClipboard_last (ds : List VariantMap) (d : VariantMap) :
    ∀ st : MonitorState,
    ((runMsgs st ((ds ++ [d]).map Msg.changeClipboard)).newData Mode.Clipboard
        = some d) ∧
    ((runMsgs st ((ds ++ [d]).map Msg.changeClipboard)).newData Mode.Selection
        = st.newData Mode.Selection) ∧
    ((runMsgs st ((ds ++ [d]).map Msg.changeClipboard)).newData Mode.FindBuffer
        = st.newData Mode.FindBuffer) ∧
    (runMsgs st ((ds ++ [d]).map Msg.changeClipboard)).timerActive = true := by
  induction ds with
  | nil =>
    intro st
    refine ⟨?_, ?_, ?_, rfl⟩ <;> simp [runMsgs, onMessageReceived]
  | cons e rest ih =>
    intro st
    have hstep :
        runMsgs st (((e :: rest) ++ [d]).map Msg.changeClipboard) =
          runMsgs (onMessageReceived st (Msg.changeClipboard e)).1
            ((rest ++ [d]).map Msg.changeClipboard) := rfl
    rw [hstep]
    refine ⟨(ih _).1, ?_, ?_, (ih _).2.2.2⟩
    · rw [(ih _).2.1]
      simp [onMessageReceived]
    · rw [(ih _).2.2.1]
      simp [onMessageReceived]

theorem runMsgs_changeSelection_last (ds : List VariantMap) (d : VariantMap) :
    ∀ st : MonitorState,
    ((runMsgs st ((ds ++ [d]).map Msg.changeSelection)).newData Mode.Selection
        = some d) ∧
    ((runMsgs st ((ds ++ [d]).map Msg.changeSelection)).newData Mode.Clipboard
        = st.newData Mode.Clipboard) ∧
    ((runMsgs st ((ds ++ [d]).map Msg.changeSelection)).newData Mode.FindBuffer
        = st.newData Mode.FindBuffer) ∧
    (runMsgs st ((ds ++ [d]).map Msg.changeSelection)).timerActive = true := by
  induction ds with
  | nil =>
    intro st
    refine ⟨?_, ?_, ?_, rfl⟩ <;> simp [runMsgs, onMessageReceived]
  | cons e rest ih =>
    intro st
    have hstep :
        runMsgs st (((e :: rest) ++ [d]).map Msg.changeSelection) =
          runMsgs (onMessageReceived st (Msg.changeSelection e)).1
            ((rest ++ [d]).map Msg.changeSelection) := rfl
    rw [hstep]
    refine ⟨(ih _).1, ?_, ?_, (ih _).2.2.2⟩
    · rw [(ih _).2.1]
      simp [onMessageReceived]
    · rw [(ih _).2.2.1]
      simp [onMessageReceived]

theorem timerFire_filter_clipboard (st : MonitorState) :
    (timerFire st).2.filter (isSetDataFor Mode.Clipboard) =
      match st.newData Mode.Clipboard with
      | some d => [Effect.setDataEff Mode.Clipboard d]
      | none => [] := by
  cases hc : st.newData Mode.Clipboard <;>
    cases hsel : st.newData Mode.Selection <;>
      simp [timerFire, setNewClipboardSlot, setNewClipboardMode, hc, hsel,
        isSetDataFor, List.filter]

theorem timerFire_filter_selection (st : MonitorState) :
    (timerFire st).2.filter (isSetDataFor Mode.Selection) =
      match st.newData Mode.Selection with
      | some d => [Effect.setDataEff Mode.Selection d]
      | none => [] := by
  cases hc : st.newData Mode.Clipboard <;>
    cases hsel : st.newData Mode.Selection <;>
      simp [timerFire, setNewClipboardSlot, setNewClipboardMode, hc, hsel,
        isSetDataFor, List.filter]

/-- C3: any burst of MonitorChangeClipboard (or MonitorChangeSelection)
commands for one mode, processed before the deferred flush runs, makes the
flush call setData for that mode exactly once, with the snapshot of the
last command. -/
theorem change_commands_coalesce (st : MonitorState) (ds : List VariantMap)
    (d : VariantMap) :
    ((timerFire (runMsgs st ((ds ++ [d]).map Msg.changeClipboard))).2.filter
        (isSetDataFor Mode.Clipboard) = [Effect.setDataEff Mode.Clipboard d]) ∧
    ((timerFire (runMsgs st ((ds ++ [d]).map Msg.changeSelection))).2.filter
        (isSetDataFor Mode.Selection) = [Effect.setDataEff Mode.Selection d]) := by
  constructor
  · rw [timerFire_filter_clipboard, (runMsgs_changeClipboard_last ds d st).1]
  · rw [timerFire_filter_selection, (runMsgs_changeSelection_last ds d st).1]

theorem timerFire_filter_findbuffer (st : MonitorState) :
    (timerFire st).2.filter (isSetDataFor Mode.FindBuffer) = [] := by
  cases hc : st.newData Mode.Clipboard <;>
    cases hsel : st.newData Mode.Selection <;>
      simp [timerFire, setNewClipboardSlot, setNewClipboardMode, hc, hsel,
        isSetDataFor, List.filter]

theorem timerFire_newData_clipboard (st : MonitorState) :
    (timerFire st).1.newData Mode.Clipboard = none := by
  cases hc : st.newData Mode.Clipboard <;>
    cases hsel : st.newData Mode.Selection <;>
      simp [timerFire, setNewClipboardSlot, setNewClipboardMode, hc, hsel]

theorem timerFire_newData_selection (st : MonitorState) :
    (timerFire st).1.newData Mode.Selection = none := by
  cases hc : st.newData Mode.Clipboard <;>
    cases hsel : st.newData Mode.Selection <;>
      simp [timerFire, setNewClipboardSlot, setNewClipboardMode, hc, hsel]

theorem timerFire_newData_findbuffer (st : MonitorState) :
    (timerFire st).1.newData Mode.FindBuffer = st.newData Mode.FindBuffer := by
  cases hc : st.newData Mode.Clipboard <;>
    cases hsel : st.newData Mode.Selection <;>
      simp [timerFire, setNewClipboardSlot, setNewClipboardMode, hc, hsel]

/-- C7: a flush applies and removes the pending snapshot of every mode
present in the pending-write set, emits no setData for an absent mode, and
leaves no entry that was present when it started (given the reachable-state
fact that the find-buffer mode is never pending). -/
theorem flush_applies_and_clears_pending (st : MonitorState)
    (hfb : st.newData Mode.FindBuffer = none) :
    (∀ (m : Mode) (d : VariantMap), st.newData m = some d →
      (timerFire st).2.filter (isSetDataFor m) = [Effect.setDataEff m d] ∧
      (timerFire st).1.newData m = none) ∧
    (∀ m : Mode, st.newData m = none →
      (timerFire st).2.filter (isSetDataFor m) = []) ∧
    (∀ m : Mode, (timerFire st).1.newData m = none) := by
  refine ⟨fun m d hm => ?_, fun m hm => ?_, fun m => ?_⟩
  · cases m
    · exact ⟨by rw [timerFire_filter_clipboard, hm],
        timerFire_newData_clipboard st⟩
    · exact ⟨by rw [timerFire_filter_selection, hm],
        timerFire_newData_selection st⟩
    · rw [hfb] at hm; cases hm
  · cases m
    · rw [timerFire_filter_clipboard, hm]
    · rw [timerFire_filter_selection, hm]
    · exact timerFire_filter_findbuffer st
  · cases m
    · exact timerFire_newData_clipboard st
    · exact timerFire_newData_selection st
    · rw [timerFire_newData_findbuffer]; exact hfb

/-- Witness state with one pending clipboard write. -/
def pendingSample : MonitorState :=
  { initMonitorState with
      newData := fun m => if m = Mode.Clipboard then some sampleData else none }

theorem flush_applies_and_clears_pending_witness :
    pendingSample.newData Mode.FindBuffer = none ∧
    pendingSample.newData Mode.Clipboard = some sampleData ∧
    ((timerFire pendingSample).2.filter (isSetDataFor Mode.Clipboard) =
        [Effect.setDataEff Mode.Clipboard sampleData] ∧
      (timerFire pendingSample).1.newData Mode.Clipboard = none) :=
  ⟨by decide, by decide,
   (flush_applies_and_clears_pending pendingSample (by decide)).1
     Mode.Clipboard sampleData (by decide)⟩

theorem onClipboardChanged_newData (st : MonitorState) (mode : Mode)
    (clipData : VariantMap) (wt : Option ByteValue) :
    (onClipboardChanged st mode clipData wt).1.newData = st.newData := by
  simp only [onClipboardChanged]
  split <;> rfl

/-- C10: in every reachable dispatcher state the pending-write set holds no
find-buffer entry; the flush never writes the find buffer, and does apply
every pending clipboard or selection entry — every operation preserves
this. -/
theorem pending_writes_only_clipboard_selection :
    (∀ st : MonitorState, Reached st → st.newData Mode.FindBuffer = none) ∧
    (∀ (st : MonitorState) (d : VariantMap),
      Effect.setDataEff Mode.FindBuffer d ∉ (timerFire st).2) ∧
    (∀ (st : MonitorState) (m : Mode) (d : VariantMap), m ≠ Mode.FindBuffer →
      st.newData m = some d → Effect.setDataEff m d ∈ (timerFire st).2) := by
  refine ⟨?_, ?_, ?_⟩
  · intro st h
    induction h with
    | init => rfl
    | msg m _ ih =>
      cases m <;> exact ih
    | changed mode data wt _ ih =>
      rw [onClipboardChanged_newData]; exact ih
    | fire _ ih =>
      rw [timerFire_newData_findbuffer]; exact ih
  · intro st d hmem
    have hf : Effect.setDataEff Mode.FindBuffer d ∈
        (timerFire st).2.filter (isSetDataFor Mode.FindBuffer) :=
      List.mem_filter.mpr ⟨hmem, rfl⟩
    rw [timerFire_filter_findbuffer] at hf
    cases hf
  · intro st m d hne hm
    cases m
    · apply List.mem_of_mem_filter (p := isSetDataFor Mode.Clipboard)
      rw [timerFire_filter_clipboard, hm]
      exact List.mem_singleton_self _
    · apply List.mem_of_mem_filter (p := isSetDataFor Mode.Selection)
      rw [timerFire_filter_selection, hm]
      exact List.mem_singleton_self _
    · exact absurd rfl hne

theorem pending_writes_only_clipboard_selection_witness :
    initMonitorState.newData Mode.FindBuffer = none ∧
    pendingSample.newData Mode.Clipboard = some sampleData ∧
    Effect.setDataEff Mode.Clipboard sampleData ∈ (timerFire pendingSample).2 :=
  ⟨pending_writes_only_clipboard_selection.1 initMonitorState Reached.init,
   by decide,
   pending_writes_only_clipboard_selection.2.2 pendingSample Mode.Clipboard
     sampleData (by decide) (by decide)⟩

/-! Framed transport.  The header clientsocket.h declares the reassembly
state (m_hasMessageLength, m_messageLength, m_message) and the wire layout
is length(uint32) code(int32) payload; the reading loop itself is in
clientsocket.cpp, which is not among the sources, so the algorithm below is
modelled from the spec: append arriving bytes to the buffer, decode the
4-byte big-endian length prefix once 4 bytes are present, and split off one
message exactly when its declared length of body bytes has arrived,
retaining surplus bytes. -/

/-- Big-endian 4-byte encoding of a 32-bit unsigned value. -/
def encodeU32 (n : Nat) : List Nat :=
  [n / 2 ^ 24 % 256, n / 2 ^ 16 % 256, n / 2 ^ 8 % 256, n % 256]

/-- Big-endian decoding of a 4-byte unsigned value. -/
def decodeU32 : List Nat → Nat
  | [a, b, c, d] => ((a * 256 + b) * 256 + c) * 256 + d
  | _ => 0

/-- Two's-complement encoding of a 32-bit signed code. -/
def encodeI32 (c : Int) : List Nat := encodeU32 ((c % 2 ^ 32).toNat)

/-- Two's-complement decoding of a 32-bit signed code. -/
def decodeI32 (bs : List Nat) : Int :=
  if decodeU32 bs < 2 ^ 31 then (decodeU32 bs : Int)
  else (decodeU32 bs : Int) - 2 ^ 32

/-- Split a full message body into its code and payload. -/
def decodeBody (body : List Nat) : Int × List Nat :=
  (decodeI32 (body.take 4), body.drop 4)

/-- Modelled from the spec: serialization of one message; the length prefix
covers code plus payload, not itself (wire format
length(uint32) code(int32) payload(byte[length-4])). -/
def serializeMessage (m : Int × List Nat) : List Nat :=
  encodeU32 (4 + m.2.length) ++ encodeI32 m.1 ++ m.2

/-- A well-formed message: the code fits a 32-bit signed integer and the
prefixed length fits a 32-bit unsigned count. -/
def wfMessage (m : Int × List Nat) : Prop :=
  -(2 ^ 31) ≤ m.1 ∧ m.1 < 2 ^ 31 ∧ 4 + m.2.length < 2 ^ 32

instance (m : Int × List Nat) : Decidable (wfMessage m) := by
  unfold wfMessage; infer_instance

/-- Reassembly state of ClientSocket: m_hasMessageLength, m_messageLength
and the accumulation buffer m_message. -/
structure FramingState where
  hasMessageLength : Bool
  messageLength : Nat
  message : List Nat
deriving DecidableEq

/-- Reassembly state of a freshly constructed socket. -/
def initFraming : FramingState := ⟨false, 0, []⟩

/-- Modelled from the spec: drain the accumulation buffer, emitting every
fully arrived message and stopping as soon as the buffer lacks either the
4-byte length prefix or the declared number of body bytes. -/
def drainBuffer : Bool → Nat → List Nat →
    (Bool × Nat × List Nat) × List (Int × List Nat)
  | true, len, buf =>
    if _h : len ≤ buf.length then
      ((drainBuffer false 0 (buf.drop len)).1,
        decodeBody (buf.take len) :: (drainBuffer false 0 (buf.drop len)).2)
    else ((true, len, buf), [])
  | false, len, buf =>
    if _h : 4 ≤ buf.length then
      drainBuffer true (decodeU32 (buf.take 4)) (buf.drop 4)
    else ((false, len, buf), [])
termination_by hasLen _len buf => 2 * buf.length + (if hasLen then 1 else 0)
decreasing_by
  all_goals simp [List.length_drop]; omega

/-- Modelled from the spec: arrival of one chunk of bytes — append to the
accumulation buffer, then drain. -/
def feedBytes (st : FramingState) (chunk : List Nat) :
    FramingState × List (Int × List Nat) :=
  (⟨(drainBuffer st.hasMessageLength st.messageLength (st.message ++ chunk)).1.1,
    (drainBuffer st.hasMessageLength st.messageLength (st.message ++ chunk)).1.2.1,
    (drainBuffer st.hasMessageLength st.messageLength (st.message ++ chunk)).1.2.2⟩,
    (drainBuffer st.hasMessageLength st.messageLength (st.message ++ chunk)).2)

/-- Feed a sequence of chunks, concatenating the emitted messages. -/
def feedAll (st : FramingState) :
    List (List Nat) → FramingState × List (Int × List Nat)
  | [] => (st, [])
  | c :: cs =>
    ((feedAll (feedBytes st c).1 cs).1,
      (feedBytes st c).2 ++ (feedAll (feedBytes st c).1 cs).2)

section FramingLemmas

theorem decodeU32_encodeU32 (n : Nat) (h : n < 2 ^ 32) :
    decodeU32 (encodeU32 n) = n := by
  simp only [encodeU32, decodeU32]
  omega

theorem decodeI32_encodeI32 (c : Int) (h1 : -(2 ^ 31) ≤ c) (h2 : c < 2 ^ 31) :
    decodeI32 (encodeI32 c) = c := by
  have hm : (c % 2 ^ 32).toNat < 2 ^ 32 := by omega
  unfold encodeI32 decodeI32
  rw [decodeU32_encodeU32 _ hm]
  split <;> omega

theorem drain_append (hasLen : Bool) (len : Nat) (buf : List Nat) :
    ∀ extra : List Nat,
    drainBuffer hasLen len (buf ++ extra) =
      ((drainBuffer (drainBuffer hasLen len buf).1.1
          (drainBuffer hasLen len buf).1.2.1
          ((drainBuffer hasLen len buf).1.2.2 ++ extra)).1,
        (drainBuffer hasLen len buf).2 ++
          (drainBuffer (drainBuffer hasLen len buf).1.1
            (drainBuffer hasLen len buf).1.2.1
            ((drainBuffer hasLen len buf).1.2.2 ++ extra)).2) := by
  induction hasLen, len, buf using drainBuffer.induct with
  | case1 len buf h ih =>
    intro extra
    have hle : len ≤ (buf ++ extra).length := by
      rw [List.length_append]; omega
    rw [drainBuffer.eq_1 len (buf ++ extra), dif_pos hle,
      List.take_append_of_le_length h, List.drop_append_of_le_length h,
      drainBuffer.eq_1 len buf, dif_pos h, ih extra]
    simp
  | case2 len buf h =>
    intro extra
    rw [drainBuffer.eq_1 len buf, dif_neg h]
    simp
  | case3 len buf h ih =>
    intro extra
    have hle : 4 ≤ (buf ++ extra).length := by
      rw [List.length_append]; omega
    rw [drainBuffer.eq_2 len (buf ++ extra), dif_pos hle,
      List.take_append_of_le_length h, List.drop_append_of_le_length h,
      drainBuffer.eq_2 len buf, dif_pos h]
    exact ih extra
  | case4 len buf h =>
    intro extra
    rw [drainBuffer.eq_2 len buf, dif_neg h]
    simp

theorem drain_idem (hasLen : Bool) (len : Nat) (buf : List Nat) :
    drainBuffer (drainBuffer hasLen len buf).1.1
      (drainBuffer hasLen len buf).1.2.1
      (drainBuffer hasLen len buf).1.2.2 =
      ((drainBuffer hasLen len buf).1, []) := by
  induction hasLen, len, buf using drainBuffer.induct with
  | case1 len buf h ih =>
    rw [drainBuffer.eq_1 len buf, dif_pos h]
    exact ih
  | case2 len buf h =>
    rw [drainBuffer.eq_1 len buf, dif_neg h]
    show drainBuffer true len buf = ((true, len, buf), [])
    rw [drainBuffer.eq_1 len buf, dif_neg h]
  | case3 len buf h ih =>
    rw [drainBuffer.eq_2 len buf, dif_pos h]
    exact ih
  | case4 len buf h =>
    rw [drainBuffer.eq_2 len buf, dif_neg h]
    show drainBuffer false len buf = ((false, len, buf), [])
    rw [drainBuffer.eq_2 len buf, dif_neg h]

theorem feedAll_eq_join (chunks : List (List Nat)) :
    ∀ st : FramingState,
    drainBuffer st.hasMessageLength st.messageLength st.message =
      ((st.hasMessageLength, st.messageLength, st.message), []) →
    feedAll st chunks = feedBytes st chunks.flatten := by
  induction chunks with
  | nil =>
    intro st hq
    show (st, []) = feedBytes st []
    simp [feedBytes, hq]
  | cons c cs ih =>
    intro st hq
    have hq' : drainBuffer (feedBytes st c).1.hasMessageLength
        (feedBytes st c).1.messageLength (feedBytes st c).1.message =
        (((feedBytes st c).1.hasMessageLength, (feedBytes st c).1.messageLength,
          (feedBytes st c).1.message), []) :=
      drain_idem st.hasMessageLength st.messageLength (st.message ++ c)
    show ((feedAll (feedBytes st c).1 cs).1,
        (feedBytes st c).2 ++ (feedAll (feedBytes st c).1 cs).2) =
      feedBytes st (c ++ cs.flatten)
    rw [ih _ hq']
    simp only [feedBytes]
    rw [← List.append_assoc,
      drain_append st.hasMessageLength st.messageLength (st.message ++ c) cs.flatten]

end FramingLemmas

theorem drain_serialized (c : Int) (p rest : List Nat)
    (h1 : -(2 ^ 31) ≤ c) (h2 : c < 2 ^ 31) (h3 : 4 + p.length < 2 ^ 32) :
    drainBuffer false 0 (serializeMessage (c, p) ++ rest) =
      ((drainBuffer false 0 rest).1, (c, p) :: (drainBuffer false 0 rest).2) := by
  have hlenU : (encodeU32 (4 + p.length)).length = 4 := rfl
  have hlenI : (encodeI32 c).length = 4 := rfl
  have hbody : (encodeI32 c ++ p).length = 4 + p.length := by
    rw [List.length_append, hlenI]
  have hs : serializeMessage (c, p) ++ rest =
      encodeU32 (4 + p.length) ++ ((encodeI32 c ++ p) ++ rest) := by
    simp [serializeMessage, List.append_assoc]
  rw [hs, drainBuffer.eq_2]
  have h4 : 4 ≤ (encodeU32 (4 + p.length) ++ ((encodeI32 c ++ p) ++ rest)).length := by
    rw [List.length_append, hlenU]; omega
  rw [dif_pos h4, List.take_left' hlenU, List.drop_left' hlenU,
    decodeU32_encodeU32 _ h3, drainBuffer.eq_1]
  have hble : 4 + p.length ≤ ((encodeI32 c ++ p) ++ rest).length := by
    rw [List.length_append, hbody]; omega
  rw [dif_pos hble, List.take_left' hbody, List.drop_left' hbody]
  have hdb : decodeBody (encodeI32 c ++ p) = (c, p) := by
    unfold decodeBody
    rw [List.take_left' hlenI, List.drop_left' hlenI, decodeI32_encodeI32 c h1 h2]
  rw [hdb]

theorem drain_stream (msgs : List (Int × List Nat)) (rest : List Nat) :
    (∀ m ∈ msgs, wfMessage m) →
    drainBuffer false 0 ((msgs.map serializeMessage).flatten ++ rest) =
      ((drainBuffer false 0 rest).1, msgs ++ (drainBuffer false 0 rest).2) := by
  induction msgs with
  | nil =>
    intro _hwf
    simp
  | cons m ms ih =>
    intro hwf
    obtain ⟨c, p⟩ := m
    obtain ⟨h1, h2, h3⟩ := hwf (c, p) (List.mem_cons_self _ _)
    have hwf' : ∀ m ∈ ms, wfMessage m := fun m hm =>
      hwf m (List.mem_cons_of_mem _ hm)
    rw [List.map_cons, List.flatten_cons, List.append_assoc,
      drain_serialized c p _ h1 h2 h3, ih hwf']
    simp

theorem feedBytes_init (bytes : List Nat) :
    feedBytes initFraming bytes =
      (⟨(drainBuffer false 0 bytes).1.1, (drainBuffer false 0 bytes).1.2.1,
        (drainBuffer false 0 bytes).1.2.2⟩, (drainBuffer false 0 bytes).2) := rfl

theorem drain_nil : drainBuffer false 0 ([] : List Nat) = ((false, 0, []), []) := by
  rw [drainBuffer.eq_2, dif_neg (by decide : ¬ (4 ≤ ([] : List Nat).length))]

/-- C8: framing round-trip — serializing any well-formed message sequence,
concatenating, and feeding the bytes to the reassembly under any partition
into chunks emits exactly the original messages in order with nothing left
over; and no message is emitted before its declared length of bytes has
arrived (feeding any strict byte-count of a single serialized message
emits nothing). -/
theorem framing_roundtrip :
    (∀ (msgs : List (Int × List Nat)) (chunks : List (List Nat)),
      (∀ m ∈ msgs, wfMessage m) →
      chunks.flatten = (msgs.map serializeMessage).flatten →
      feedAll initFraming chunks = (initFraming, msgs)) ∧
    (∀ m : Int × List Nat, wfMessage m →
      ∀ k, k < (serializeMessage m).length →
      (feedBytes initFraming ((serializeMessage m).take k)).2 = []) := by
  constructor
  · intro msgs chunks hwf hflat
    have hq : drainBuffer initFraming.hasMessageLength initFraming.messageLength
        initFraming.message =
        ((initFraming.hasMessageLength, initFraming.messageLength,
          initFraming.message), []) := drain_nil
    have hfinal : drainBuffer false 0 ((msgs.map serializeMessage).flatten) =
        ((false, 0, []), msgs) := by
      have h := drain_stream msgs [] hwf
      rw [List.append_nil, drain_nil] at h
      simpa using h
    rw [feedAll_eq_join chunks initFraming hq, hflat, feedBytes_init, hfinal]
    rfl
  · intro m hwf k hk
    obtain ⟨c, p⟩ := m
    obtain ⟨h1, h2, h3⟩ := hwf
    have hslen : (serializeMessage (c, p)).length = 8 + p.length := by
      simp [serializeMessage, encodeU32, encodeI32]
      omega
    rw [feedBytes_init]
    show (drainBuffer false 0 ((serializeMessage (c, p)).take k)).2 = []
    by_cases hk4 : k < 4
    · have hlen : ((serializeMessage (c, p)).take k).length = k := by
        rw [List.length_take]
        exact min_eq_left (le_of_lt hk)
      have hno : ¬ (4 ≤ ((serializeMessage (c, p)).take k).length) := by
        rw [hlen]; omega
      rw [drainBuffer.eq_2, dif_neg hno]
    · push_neg at hk4
      have hsform : serializeMessage (c, p) =
          encodeU32 (4 + p.length) ++ (encodeI32 c ++ p) := by
        simp [serializeMessage, List.append_assoc]
      have hlenU : (encodeU32 (4 + p.length)).length = 4 := rfl
      have hsplit : (serializeMessage (c, p)).take k =
          encodeU32 (4 + p.length) ++ (encodeI32 c ++ p).take (k - 4) := by
        rw [hsform, List.take_append_eq_append_take, hlenU,
          List.take_of_length_le (by rw [hlenU]; omega)]
      rw [hsplit, drainBuffer.eq_2]
      have h4 : 4 ≤ (encodeU32 (4 + p.length) ++
          (encodeI32 c ++ p).take (k - 4)).length := by
        rw [List.length_append, hlenU]; omega
      rw [dif_pos h4, List.take_left' hlenU, List.drop_left' hlenU,
        decodeU32_encodeU32 _ h3, drainBuffer.eq_1]
      have hlt : ¬ (4 + p.length ≤ ((encodeI32 c ++ p).take (k - 4)).length) := by
        intro hcon
        have hup := le_trans hcon (List.length_take_le _ _)
        rw [hslen] at hk
        omega
      rw [dif_neg hlt]

theorem framing_roundtrip_witness :
    (∀ m ∈ [((1 : Int), [65])], wfMessage m) ∧
    ([[0], [0], [0], [5], [0], [0], [0], [1], [65]] :
        List (List Nat)).flatten =
      ([((1 : Int), [65])].map serializeMessage).flatten ∧
    feedAll initFraming [[0], [0], [0], [5], [0], [0], [0], [1], [65]] =
      (initFraming, [((1 : Int), [65])]) ∧
    3 < (serializeMessage ((1 : Int), [65])).length ∧
    (feedBytes initFraming ((serializeMessage ((1 : Int), [65])).take 3)).2 = [] :=
  ⟨by decide, by decide,
   framing_roundtrip.1 [((1 : Int), [65])]
     [[0], [0], [0], [5], [0], [0], [0], [1], [65]] (by decide) (by decide),
   by decide,
   framing_roundtrip.2 ((1 : Int), [65]) (by decide) 3 (by decide)⟩
